import Mathlib

/-!
Verification of the ZenFocus application core (`src/App.tsx`).

The development shallow-embeds the parts of the source that the specification
talks about: the `useLocalStorage` hook (durable store), the countdown-timer
effect loop, the task handlers, and the Gemini advisory client.  Platform
inputs (the stored raw string, the clock value `Date.now()`, the per-call
random id draws, the HTTP outcome) are explicit parameters; JavaScript
machine behaviour that matters (string truthiness, `JSON.parse` throwing,
`try`/`catch`) is modelled explicitly.
-/

namespace ZenFocus

/-! ## Durable store (`useLocalStorage`, App.tsx lines 35-56)

`loadStored` models the `useState` initializer: `item` is what
`window.localStorage.getItem(key)` returned (`none` is the `null` literal the
Web Storage API yields for an absent key).  The JavaScript truthiness test
`item ? JSON.parse(item) : initialValue` sends both `null` and the empty
string to the default without parsing.  `parse` models `JSON.parse`, which
throws (`Except.error`) on malformed content; the surrounding `try`/`catch`
turns any such throw into `console.error` plus the default, which we record
in the second component (`true` iff a failure was logged).  The result type
`α × Bool` (rather than `Except`) embeds the fact that the catch is total:
no error can propagate to the caller. -/
def loadStored {α : Type} (parse : String → Except String α)
    (item : Option String) (initialValue : α) : α × Bool :=
  match item with
  | none => (initialValue, false)
  | some s =>
    if s = "" then (initialValue, false)
    else
      match parse s with
      | Except.ok v => (v, false)
      | Except.error _ => (initialValue, true)

/-- Models `setValue` (App.tsx lines 46-53).  The in-memory/persisted pair is
`(memory, stored raw string)`.  `setStoredValue value` runs first; the
`localStorage.setItem` write (serialization included) may throw — `writeFails`
is that platform outcome — and the `catch` logs and swallows it, so the
function is total and the second component records whether a failure was
logged. -/
def setValue {α : Type} (serialize : α → String) (writeFails : Bool)
    (value : α) (st : α × Option String) : (α × Option String) × Bool :=
  if writeFails then ((value, st.2), true)
  else ((value, some (serialize value)), false)

/-! ## Timer engine (App.tsx lines 88-102, 178-190, 224-235)

The timer is a `useEffect` on `[isActive, timeLeft]` that arms a single
one-second `setTimeout` (decrementing `timeLeft`) while the timer is running
and time remains, and otherwise handles expiry; its cleanup cancels the armed
timeout on every re-run.  We model the armed timeout as a `pending` flag:
every state transition re-runs the effect (`runEffect`), which first cancels
any pending timeout and then re-arms or expires exactly as the source does.
`timeLeft` is an integer (JavaScript number), so non-negativity is a real
property, not a typing artifact. -/

inductive Mode
  | focus
  | short
  | long
deriving DecidableEq, Repr

/-- `MODES[mode].time` (App.tsx lines 98-102). -/
def Mode.time : Mode → Int
  | .focus => 25 * 60
  | .short => 5 * 60
  | .long => 15 * 60

structure TimerState where
  mode : Mode
  timeLeft : Int
  isActive : Bool
  pending : Bool
deriving DecidableEq, Repr

/-- One run of the tick-loop effect body (App.tsx lines 178-190), after its
cleanup has cancelled any previously armed timeout.  The second component is
`true` iff `playNotification` was invoked, which the source guards with
`soundEnabled`. -/
def runEffect (sound : Bool) (s : TimerState) : TimerState × Bool :=
  if s.isActive = true ∧ 0 < s.timeLeft then
    ({ s with pending := true }, false)
  else if s.timeLeft = 0 then
    ({ s with isActive := false, pending := false }, sound)
  else
    ({ s with pending := false }, false)

/-- The armed timeout fires: `setTimeLeft (prev => prev - 1)` followed by the
effect re-run its state change triggers.  Firing with nothing armed is a
no-op. -/
def fireTick (sound : Bool) (s : TimerState) : TimerState × Bool :=
  if s.pending = true then
    runEffect sound { s with timeLeft := s.timeLeft - 1, pending := false }
  else (s, false)

/-- `switchMode` (App.tsx lines 224-228): stop, set the mode, reset the
remaining time; the state change re-runs the effect, whose cleanup cancels
any pending tick. -/
def switchMode (sound : Bool) (m : Mode) (s : TimerState) : TimerState × Bool :=
  runEffect sound { s with isActive := false, mode := m, timeLeft := m.time }

/-- `toggleTimer` (App.tsx line 230) plus the effect re-run. -/
def toggleTimer (sound : Bool) (s : TimerState) : TimerState × Bool :=
  runEffect sound { s with isActive := !s.isActive }

/-- `resetTimer` (App.tsx lines 232-235) plus the effect re-run. -/
def resetTimer (sound : Bool) (s : TimerState) : TimerState × Bool :=
  runEffect sound { s with isActive := false, timeLeft := s.mode.time }

/-- Initial state (App.tsx lines 88-90): focus mode, `25 * 60` seconds,
paused; the mount-time effect run arms nothing. -/
def initState : TimerState := ⟨Mode.focus, 25 * 60, false, false⟩

/-- Timer states reachable from the initial state under the engine's
transitions, with the sound flag free to vary between transitions (it is not
a dependency of the effect). -/
inductive Reachable : TimerState → Prop
  | init : Reachable initState
  | fire (sound : Bool) {s : TimerState} : Reachable s → Reachable (fireTick sound s).1
  | toggle (sound : Bool) {s : TimerState} : Reachable s → Reachable (toggleTimer sound s).1
  | reset (sound : Bool) {s : TimerState} : Reachable s → Reachable (resetTimer sound s).1
  | switch (sound : Bool) (m : Mode) {s : TimerState} :
      Reachable s → Reachable (switchMode sound m s).1

/-- The engine invariant: remaining time is never negative, and a tick is
armed only while the timer is running with time remaining. -/
def Inv (s : TimerState) : Prop :=
  0 ≤ s.timeLeft ∧ (s.pending = true → s.isActive = true ∧ 0 < s.timeLeft)

theorem Mode.time_pos (m : Mode) : 0 < m.time := by
  cases m <;> decide

theorem runEffect_timeLeft (sound : Bool) (s : TimerState) :
    (runEffect sound s).1.timeLeft = s.timeLeft := by
  unfold runEffect
  split_ifs <;> rfl

theorem inv_runEffect (sound : Bool) (s : TimerState) (h : 0 ≤ s.timeLeft) :
    Inv (runEffect sound s).1 := by
  unfold runEffect Inv
  split_ifs with h1 h2 <;> simp_all

theorem inv_fireTick (sound : Bool) (s : TimerState) (h : Inv s) :
    Inv (fireTick sound s).1 := by
  unfold fireTick
  split_ifs with hp
  · apply inv_runEffect
    have := (h.2 hp).2
    simp only
    omega
  · exact h

theorem reachable_inv {s : TimerState} (h : Reachable s) : Inv s := by
  induction h with
  | init => exact ⟨by decide, by decide⟩
  | fire sound _ ih => exact inv_fireTick _ _ ih
  | toggle sound _ ih => exact inv_runEffect _ _ ih.1
  | reset sound _ ih =>
      apply inv_runEffect
      simpa using le_of_lt (Mode.time_pos _)
  | switch sound m _ ih =>
      apply inv_runEffect
      simpa using le_of_lt (Mode.time_pos m)

/-- C2: in every reachable timer state the remaining seconds are non-negative;
a firing tick changes `timeLeft` only while the timer is running with time
remaining, and then decrements it by exactly 1; when the last second elapses
while running, the engine stops (`isActive = false`) and signals the
notification collaborator exactly when the sound flag is true; and starting
from 5 seconds running, 5 ticks end at 0 seconds, stopped. -/
theorem claim_C2_timer_invariants (s : TimerState) (hs : Reachable s) (sound : Bool) :
    0 ≤ s.timeLeft
    ∧ ((fireTick sound s).1.timeLeft ≠ s.timeLeft →
        s.isActive = true ∧ 0 < s.timeLeft ∧
        (fireTick sound s).1.timeLeft = s.timeLeft - 1)
    ∧ (s.pending = true → s.timeLeft = 1 →
        (fireTick sound s).1.timeLeft = 0 ∧ (fireTick sound s).1.isActive = false ∧
        (fireTick sound s).2 = sound)
    ∧ (fun t => (fireTick true t).1)^[5] (runEffect true ⟨Mode.focus, 5, true, false⟩).1
        = ⟨Mode.focus, 0, false, false⟩ := by
  have hinv := reachable_inv hs
  refine ⟨hinv.1, ?_, ?_, by decide⟩
  · intro hne
    by_cases hp : s.pending = true
    · have h2 := hinv.2 hp
      refine ⟨h2.1, h2.2, ?_⟩
      unfold fireTick
      rw [if_pos hp, runEffect_timeLeft]
    · exfalso
      apply hne
      unfold fireTick
      rw [if_neg hp]
  · intro hp h1
    have h2 := hinv.2 hp
    have htl : s.timeLeft - 1 = 0 := by omega
    simp [fireTick, hp, runEffect, htl]

/-- Witness for C2 at the initial state. -/
theorem claim_C2_timer_invariants_witness :
    0 ≤ initState.timeLeft
    ∧ ((fireTick true initState).1.timeLeft ≠ initState.timeLeft →
        initState.isActive = true ∧ 0 < initState.timeLeft ∧
        (fireTick true initState).1.timeLeft = initState.timeLeft - 1)
    ∧ (initState.pending = true → initState.timeLeft = 1 →
        (fireTick true initState).1.timeLeft = 0 ∧
        (fireTick true initState).1.isActive = false ∧
        (fireTick true initState).2 = true)
    ∧ (fun t => (fireTick true t).1)^[5] (runEffect true ⟨Mode.focus, 5, true, false⟩).1
        = ⟨Mode.focus, 0, false, false⟩ :=
  claim_C2_timer_invariants initState Reachable.init true

/-- C3: `switchMode m` always yields a stopped timer in mode `m` with
`timeLeft = m.time` (1500 / 300 / 900 seconds) and no armed tick, fires no
notification, and a subsequent timeout firing is a no-op (the pending tick
was cancelled); in particular switching from a running focus session with
900 s left to the short break yields 300 s, stopped. -/
theorem claim_C3_switchMode (sound : Bool) (m : Mode) (s : TimerState) :
    (switchMode sound m s).1 = ⟨m, m.time, false, false⟩
    ∧ (switchMode sound m s).2 = false
    ∧ (∀ sound2 : Bool,
        fireTick sound2 (switchMode sound m s).1 = ((switchMode sound m s).1, false))
    ∧ switchMode true Mode.short ⟨Mode.focus, 900, true, true⟩
        = (⟨Mode.short, 300, false, false⟩, false) := by
  have hmt := Mode.time_pos m
  have h : switchMode sound m s = (⟨m, m.time, false, false⟩, false) := by
    unfold switchMode runEffect
    split_ifs with ha hb <;> simp_all
  refine ⟨by rw [h], by rw [h], ?_, by decide⟩
  intro sound2
  rw [h]
  simp [fireTick]

/-- C1 counterexample: the claim says every present-but-malformed raw string
is *logged* and replaced by the default.  The empty raw string is present and
malformed (`JSON.parse('')` throws a SyntaxError), yet the truthiness guard
`item ? ... : initialValue` returns the default without running the parser,
so nothing is logged. -/
theorem claim_C1_cex :
    loadStored (fun _ => (Except.error ("SyntaxError") : Except String Nat)) (some ("")) 7
        = (7, false)
    ∧ loadStored (fun _ => (Except.error ("SyntaxError") : Except String Nat)) (some ("")) 7
        ≠ (7, true) :=
  ⟨rfl, by decide⟩

/-- C1 (amended): `load` returns the default on an absent raw string; on a
present non-empty raw string that fails to deserialize it logs the failure
and returns the default; a present empty raw string is short-circuited to the
default without logging; and in every case the result is either the default
or a successfully parsed value — the error never reaches the caller (the
return type of `loadStored` carries no error). -/
theorem claim_C1_load_guard {α : Type} (parse : String → Except String α) (d : α) :
    loadStored parse none d = (d, false)
    ∧ (∀ s e, s ≠ "" → parse s = Except.error e →
        loadStored parse (some s) d = (d, true))
    ∧ loadStored parse (some ("")) d = (d, false)
    ∧ (∀ item, (loadStored parse item d).1 = d ∨
        ∃ s v, item = some s ∧ parse s = Except.ok v ∧
          loadStored parse item d = (v, false)) := by
  refine ⟨rfl, ?_, by simp [loadStored], ?_⟩
  · intro s e hs he
    simp [loadStored, hs, he]
  · intro item
    match item with
    | none => exact Or.inl rfl
    | some s =>
      by_cases hs : s = ""
      · exact Or.inl (by simp [loadStored, hs])
      · cases hp : parse s with
        | ok v => exact Or.inr ⟨s, v, rfl, hp, by simp [loadStored, hs, hp]⟩
        | error e => exact Or.inl (by simp [loadStored, hs, hp])

/-- Witness for the amended C1 at a concrete parser and raw string. -/
theorem claim_C1_load_guard_witness :
    loadStored (fun s => if s = "bad" then Except.error ("e") else Except.ok s.length)
        (some ("bad")) 7 = (7, true) :=
  (claim_C1_load_guard (fun s => if s = "bad" then Except.error ("e") else Except.ok s.length)
      7).2.1 ("bad") ("e") (by decide) (by simp)

/-- C8: the `null` literal returned by the storage read for an absent key is
treated exactly like absence — the default is returned, the parser is never
consulted (the result cannot depend on it), and no failure is logged. -/
theorem claim_C8_null_read {α : Type} (parse parse2 : String → Except String α) (d : α) :
    loadStored parse none d = (d, false)
    ∧ loadStored parse none d = loadStored parse2 none d :=
  ⟨rfl, rfl⟩

/-- C9: when the storage write fails, `setValue` logs and swallows the
failure (the function is total, so nothing propagates), the in-memory value
has already been updated to the new value, and the stored raw string is left
as it was. -/
theorem claim_C9_save_failure {α : Type} (serialize : α → String)
    (value mem : α) (stored : Option String) :
    setValue serialize true value (mem, stored) = ((value, stored), true) :=
  rfl

/-! ## JavaScript string and JSON primitives used by the AI handlers

The breakdown handler (App.tsx lines 140-163) strips markdown fences with two
global `replace` calls, trims, and runs `JSON.parse` inside a `try`.  We model
the platform pieces executably.  `jsonParse` models `JSON.parse` followed by
the `Array.isArray` test, restricted to the grammar the feature exercises:
arrays of string literals (the advertised output contract of the prompt),
the literals `null` / `true` / `false`, and top-level strings; other JSON
documents are outside the model, and `none` models a thrown SyntaxError. -/

/-- The four JSON whitespace characters. -/
def jsonWsChars : List Char := [' ', '\t', '\n', '\r']

/-- Leading JSON whitespace removal. -/
def skipWs (cs : List Char) : List Char :=
  cs.dropWhile jsonWsChars.contains

/-- Lookup table for the one-character JSON string escapes (the `\\uXXXX`
form is outside the modelled subset). -/
def escTable : List (Char × Char) :=
  [('"', '"'), ('\\', '\\'), ('/', '/'), ('n', '\n'),
   ('t', '\t'), ('r', '\r'), ('b', '\x08'), ('f', '\x0c')]

def escChar (e : Char) : Option Char :=
  (escTable.find? fun p => p.1 == e).map Prod.snd

/-- Body of a JSON string literal after its opening quote; returns the
decoded characters and the input after the closing quote. -/
def parseStrChars : List Char → Option (List Char × List Char)
  | [] => none
  | '"' :: rest => some ([], rest)
  | '\\' :: e :: rest =>
    match escChar e, parseStrChars rest with
    | some c, some (acc, rem) => some (c :: acc, rem)
    | _, _ => none
  | c :: rest =>
    match parseStrChars rest with
    | some (acc, rem) => some (c :: acc, rem)
    | none => none

/-- Comma-separated string literals up to the closing bracket (fuelled by the
input length). -/
def parseItems : Nat → List Char → Option (List String × List Char)
  | 0, _ => none
  | fuel + 1, cs =>
    match cs with
    | '"' :: rest =>
      match parseStrChars rest with
      | none => none
      | some (sc, rest2) =>
        match skipWs rest2 with
        | ',' :: rest3 =>
          match parseItems fuel (skipWs rest3) with
          | some (xs, r) => some (String.mk sc :: xs, r)
          | none => none
        | ']' :: rest3 => some ([String.mk sc], rest3)
        | _ => none
    | _ => none

/-- Result of `JSON.parse` classified by the `Array.isArray` test the handler
performs. -/
inductive Parsed
  | arr (xs : List String)
  | nonArr
deriving DecidableEq, Repr

/-- Non-array JSON documents of the modelled subset. -/
def scalarOf (cs : List Char) : Option Parsed :=
  if cs = "null".data ∨ cs = "true".data ∨ cs = "false".data then some Parsed.nonArr
  else
    match cs with
    | '"' :: rest =>
      match parseStrChars rest with
      | some (_, rest2) => if (skipWs rest2).isEmpty then some Parsed.nonArr else none
      | none => none
    | _ => none

/-- `JSON.parse` plus `Array.isArray`, on the modelled grammar; `none` is a
thrown SyntaxError. -/
def jsonParse (s : String) : Option Parsed :=
  match skipWs s.data with
  | '[' :: rest =>
    match skipWs rest with
    | ']' :: rest2 => if (skipWs rest2).isEmpty then some (Parsed.arr []) else none
    | cs2 =>
      match parseItems (cs2.length + 1) cs2 with
      | some (xs, rest2) => if (skipWs rest2).isEmpty then some (Parsed.arr xs) else none
      | none => none
  | cs => scalarOf cs

/-- Fuelled worker for `removeAll`; every step consumes at least one input
character, so fuel equal to the input length is enough. -/
def removeAllFuel (pat : List Char) : Nat → List Char → List Char
  | 0, l => l
  | _ + 1, [] => []
  | fuel + 1, c :: cs =>
    if pat ≠ [] ∧ pat.isPrefixOf (c :: cs) then
      removeAllFuel pat fuel (List.drop (pat.length - 1) cs)
    else c :: removeAllFuel pat fuel cs

/-- Global non-overlapping removal of `pat`, scanning left to right without
rescanning the removal site — the semantics of
`String.prototype.replace(/pat/g, '')`. -/
def removeAll (pat : List Char) (l : List Char) : List Char :=
  removeAllFuel pat l.length l

/-- `String.prototype.trim` on the whitespace the modelled strings use. -/
def jsTrim (s : String) : String :=
  String.mk (((s.data.dropWhile Char.isWhitespace).reverse.dropWhile
    Char.isWhitespace).reverse)

/-- The fence cleanup of App.tsx line 143:
`result.replace(/\x60\x60\x60json/g, '').replace(/\x60\x60\x60/g, '').trim()`. -/
def cleanResult (r : String) : String :=
  jsTrim (String.mk (removeAll ("```".data) (removeAll ("```json".data) r.data)))

/-! ## Task model and handlers (App.tsx lines 18-30, 238-265)

`id` fields are JavaScript numbers drawn from the platform (`Date.now()` for
tasks, `Date.now() + Math.random()` for subtasks); the model takes them as
explicit integer inputs, since only their equalities matter to the logic.
`subtasks` and `isExpanded` are optional in the source interface, so they are
`Option`-typed here and the handlers go through the same `?.` / `|| []` / `!`
coaxing the source uses. -/

structure SubTask where
  id : Int
  text : String
  completed : Bool
deriving DecidableEq, Repr

structure Task where
  id : Int
  text : String
  completed : Bool
  subtasks : Option (List SubTask)
  isExpanded : Option Bool
deriving DecidableEq, Repr

/-- `addTask` (App.tsx lines 238-243): rejects blank text, otherwise appends
a task whose id is the `Date.now()` reading `now`. -/
def addTask (now : Int) (text : String) (ts : List Task) : List Task :=
  if jsTrim text = "" then ts
  else ts ++ [⟨now, text, false, some [], some false⟩]

/-- `toggleTask` (App.tsx lines 245-247). -/
def toggleTask (i : Int) (ts : List Task) : List Task :=
  ts.map fun t => if t.id = i then { t with completed := !t.completed } else t

/-- `toggleSubtask` (App.tsx lines 249-257); an absent `subtasks` field stays
absent through the optional-chained map. -/
def toggleSubtask (taskId subId : Int) (ts : List Task) : List Task :=
  ts.map fun t =>
    if t.id = taskId then
      { t with subtasks := t.subtasks.map (List.map fun st =>
          if st.id = subId then { st with completed := !st.completed } else st) }
    else t

/-- `deleteTask` (App.tsx lines 259-261). -/
def deleteTask (i : Int) (ts : List Task) : List Task :=
  ts.filter fun t => decide (¬ t.id = i)

/-- `toggleExpand` (App.tsx lines 263-265); `!undefined` is `true`. -/
def toggleExpand (i : Int) (ts : List Task) : List Task :=
  ts.map fun t =>
    if t.id = i then { t with isExpanded := some (!(t.isExpanded.getD false)) } else t

/-! ## AI advisory client (App.tsx lines 105-175) -/

/-- Outcome of the `fetch` to the text-generation endpoint: a network-level
failure (anything that makes `fetch` or `response.json()` throw), or an HTTP
response with its `ok` flag and the optionally-present
`candidates[0].content.parts[0].text` field. -/
inductive FetchOutcome
  | networkError
  | httpResponse (ok : Bool) (extractedText : Option String)

/-- `callGemini` (App.tsx lines 105-130): a non-ok response throws into the
local `catch`, which alerts and returns `null`; an ok response yields the
extracted text with `|| ''` supplying the empty string when the expected
fields are missing.  The second component records whether the failure alert
was shown. -/
def callGemini : FetchOutcome → Option String × Bool
  | .networkError => (none, true)
  | .httpResponse ok ext => if ok then (some (ext.getD ("")), false) else (none, true)

/-- The subtask records built from the parsed steps (App.tsx lines 147-151);
`idGen k` is the platform's `Date.now() + Math.random()` draw for the `k`-th
step. -/
def mkSubtasks (idGen : Nat → Int) (steps : List String) : List SubTask :=
  steps.enum.map fun p => ⟨idGen p.1, p.2, false⟩

/-- `handleSmartBreakdown` (App.tsx lines 133-165).  `null` and the empty
string are both falsy, so they skip the parse block; a parse throw alerts;
a parsed non-array does nothing; a parsed array appends fresh subtask records
to the matching task and expands it.  The second component records whether
any user-visible alert was shown (by `callGemini` or by the parse `catch`). -/
def handleSmartBreakdown (outcome : FetchOutcome) (idGen : Nat → Int)
    (taskId : Int) (tasks : List Task) : List Task × Bool :=
  match callGemini outcome with
  | (none, alerted) => (tasks, alerted)
  | (some r, alerted) =>
    if r = "" then (tasks, alerted)
    else
      match jsonParse (cleanResult r) with
      | none => (tasks, true)
      | some Parsed.nonArr => (tasks, alerted)
      | some (Parsed.arr steps) =>
        (tasks.map fun t =>
          if t.id = taskId then
            { t with subtasks := some ((t.subtasks.getD []) ++ mkSubtasks idGen steps),
                     isExpanded := some true }
          else t, alerted)

/-- `getZenCoachTip` (App.tsx lines 167-175): the tip display changes only
when the call produced a truthy string. -/
def getZenCoachTip (outcome : FetchOutcome) (coachTip : Option String) :
    Option String × Bool :=
  match callGemini outcome with
  | (none, alerted) => (coachTip, alerted)
  | (some t, alerted) => if t = "" then (coachTip, alerted) else (some t, alerted)

/-- A map whose function fixes every member is the identity. -/
theorem listMapId {α : Type} (l : List α) (f : α → α) (h : ∀ a ∈ l, f a = a) :
    l.map f = l := by
  induction l with
  | nil => rfl
  | cons a l ih =>
    simp only [List.map_cons]
    rw [h a (by simp), ih fun b hb => h b (by simp [hb])]

/-- C4: a successful breakdown response of exactly
`["Open the document","Write outline"]` appends, to the matching task only,
two fresh incomplete subtask records with those texts after its existing
subtasks and expands it, with no alert; a network failure, a non-success
response, or the malformed response `not json` leaves every task unchanged
and surfaces the user-visible alert — and `handleSmartBreakdown` is a total
function, so no exception escapes the boundary. -/
theorem claim_C4_breakdown (ts : List Task) (taskId : Int) (idGen : Nat → Int) :
    handleSmartBreakdown
        (FetchOutcome.httpResponse true (some ("[\"Open the document\",\"Write outline\"]")))
        idGen taskId ts
      = (ts.map fun t =>
          if t.id = taskId then
            { t with
                subtasks := some ((t.subtasks.getD []) ++
                  [⟨idGen 0, "Open the document", false⟩, ⟨idGen 1, "Write outline", false⟩]),
                isExpanded := some true }
          else t, false)
    ∧ handleSmartBreakdown FetchOutcome.networkError idGen taskId ts = (ts, true)
    ∧ (∀ ext, handleSmartBreakdown (FetchOutcome.httpResponse false ext) idGen taskId ts
        = (ts, true))
    ∧ handleSmartBreakdown (FetchOutcome.httpResponse true (some ("not json"))) idGen taskId ts
        = (ts, true) :=
  ⟨rfl, rfl, fun _ => rfl, rfl⟩

/-- C10: an ok response that lacks the candidates/content/parts fields is
extracted as the empty string; both callers treat the empty string as falsy,
leaving the tasks and the displayed tip unchanged, and no alert is shown for
this shape. -/
theorem claim_C10_empty_extraction (ts : List Task) (taskId : Int) (idGen : Nat → Int)
    (coachTip : Option String) :
    callGemini (FetchOutcome.httpResponse true none) = (some (""), false)
    ∧ handleSmartBreakdown (FetchOutcome.httpResponse true none) idGen taskId ts = (ts, false)
    ∧ getZenCoachTip (FetchOutcome.httpResponse true none) coachTip = (coachTip, false) :=
  ⟨rfl, rfl, rfl⟩

/-- C5 counterexample: the claim says `add` always assigns a fresh id, but the
id is the raw `Date.now()` reading: adding to a collection that already holds
a task created at the same millisecond duplicates the id. -/
theorem claim_C5_cex :
    ¬ ((addTask 1000 ("hello") [⟨1000, "x", false, some [], some false⟩]).map Task.id).Nodup := by
  decide

/-- C5 (amended): blank text leaves the collection unchanged; otherwise `add`
appends exactly one new incomplete task with empty subtasks, not expanded,
whose id is the supplied `Date.now()` reading — fresh, and keeping the id
list duplicate-free, whenever that reading differs from every existing id;
existing tasks are untouched. -/
theorem claim_C5_addTask (ts : List Task) (text : String) (now : Int) :
    (jsTrim text = "" → addTask now text ts = ts)
    ∧ (jsTrim text ≠ "" →
        addTask now text ts = ts ++ [⟨now, text, false, some [], some false⟩])
    ∧ (jsTrim text ≠ "" → now ∉ ts.map Task.id → (ts.map Task.id).Nodup →
        ((addTask now text ts).map Task.id).Nodup) := by
  refine ⟨fun h => by simp [addTask, h], fun h => by simp [addTask, h], fun h hf hnd => ?_⟩
  rw [addTask, if_neg h, List.map_append]
  exact List.Nodup.append hnd (by simp) (by simpa [List.disjoint_singleton] using hf)

/-- Witness for the amended C5 on blank and non-blank text. -/
theorem claim_C5_addTask_witness :
    addTask 5 ("  ") ([] : List Task) = []
    ∧ addTask 5 ("hi") ([] : List Task) = [] ++ [⟨5, "hi", false, some [], some false⟩]
    ∧ ((addTask 5 ("hi") ([] : List Task)).map Task.id).Nodup :=
  ⟨(claim_C5_addTask [] ("  ") 5).1 (by decide),
   (claim_C5_addTask [] ("hi") 5).2.1 (by decide),
   (claim_C5_addTask [] ("hi") 5).2.2 (by decide) (by decide) (by decide)⟩

/-- Every run of the breakdown handler either leaves the collection unchanged
or maps the append-and-expand update over it for some parsed step list. -/
theorem handleSmartBreakdown_cases (outcome : FetchOutcome) (idGen : Nat → Int)
    (taskId : Int) (ts : List Task) :
    (handleSmartBreakdown outcome idGen taskId ts).1 = ts ∨
    ∃ steps, (handleSmartBreakdown outcome idGen taskId ts).1
      = ts.map fun t =>
          if t.id = taskId then
            { t with subtasks := some ((t.subtasks.getD []) ++ mkSubtasks idGen steps),
                     isExpanded := some true }
          else t := by
  rcases hc : callGemini outcome with ⟨_ | r, a⟩
  · simp [handleSmartBreakdown, hc]
  · by_cases hr : r = ""
    · simp [handleSmartBreakdown, hc, hr]
    · rcases hp : jsonParse (cleanResult r) with _ | p
      · simp [handleSmartBreakdown, hc, hr, hp]
      · cases p with
        | nonArr => simp [handleSmartBreakdown, hc, hr, hp]
        | arr steps => exact Or.inr ⟨steps, by simp [handleSmartBreakdown, hc, hr, hp]⟩

/-- C6: toggling a task flips `completed` on the tasks with the given id and
nothing else (text, subtasks, expansion and all other tasks are untouched),
and is a collection-level no-op when the id is absent; toggling a subtask
flips `completed` on the matching subtask of the matching task only and is a
no-op when either id is absent; and after deleting a task, any subtask
operation addressed to its id — the subtask toggle or the breakdown
attachment — leaves the collection unchanged and cannot fault. -/
theorem claim_C6_frame (ts : List Task) (taskId subId : Int) (k : Nat) :
    (toggleTask taskId ts)[k]? = (ts[k]?).map
        (fun t => if t.id = taskId then { t with completed := !t.completed } else t)
    ∧ (taskId ∉ ts.map Task.id → toggleTask taskId ts = ts)
    ∧ (toggleSubtask taskId subId ts)[k]? = (ts[k]?).map
        (fun t => if t.id = taskId then
            { t with subtasks := t.subtasks.map (List.map fun st =>
                if st.id = subId then { st with completed := !st.completed } else st) }
          else t)
    ∧ (taskId ∉ ts.map Task.id → toggleSubtask taskId subId ts = ts)
    ∧ ((∀ t ∈ ts, t.id = taskId → subId ∉ (t.subtasks.getD []).map SubTask.id) →
        toggleSubtask taskId subId ts = ts)
    ∧ toggleSubtask taskId subId (deleteTask taskId ts) = deleteTask taskId ts
    ∧ (∀ outcome idGen,
        (handleSmartBreakdown outcome idGen taskId (deleteTask taskId ts)).1
          = deleteTask taskId ts) := by
  have hdel : ∀ t, t ∈ deleteTask taskId ts → ¬ t.id = taskId := by
    intro t ht
    simp only [deleteTask] at ht
    exact of_decide_eq_true (List.mem_filter.mp ht).2
  refine ⟨List.getElem?_map _ _ _, ?_, List.getElem?_map _ _ _, ?_, ?_, ?_, ?_⟩
  · intro h
    apply listMapId
    intro t ht
    have hne : ¬ t.id = taskId := fun he => h (he ▸ List.mem_map_of_mem Task.id ht)
    rw [if_neg hne]
  · intro h
    apply listMapId
    intro t ht
    have hne : ¬ t.id = taskId := fun he => h (he ▸ List.mem_map_of_mem Task.id ht)
    rw [if_neg hne]
  · intro h
    apply listMapId
    intro t ht
    by_cases he : t.id = taskId
    · rw [if_pos he]
      have hsub : t.subtasks.map (List.map fun st =>
          if st.id = subId then { st with completed := !st.completed } else st)
          = t.subtasks := by
        cases hs : t.subtasks with
        | none => rfl
        | some l =>
          simp only [Option.map_some']
          congr 1
          apply listMapId
          intro st hst
          have hid : ¬ st.id = subId := by
            intro hid
            apply h t ht he
            rw [← hid]
            apply List.mem_map_of_mem SubTask.id
            simpa [hs] using hst
          rw [if_neg hid]
      rw [hsub]
    · rw [if_neg he]
  · apply listMapId
    intro t ht
    rw [if_neg (hdel t ht)]
  · intro outcome idGen
    rcases handleSmartBreakdown_cases outcome idGen taskId (deleteTask taskId ts)
      with h | ⟨steps, h⟩
    · exact h
    · rw [h]
      apply listMapId
      intro t ht
      rw [if_neg (hdel t ht)]

/-- Witness for C6: the id-absent no-ops at a concrete collection. -/
theorem claim_C6_frame_witness :
    toggleTask 3 [⟨1, "a", false, some [⟨10, "s", false⟩], some false⟩]
        = [⟨1, "a", false, some [⟨10, "s", false⟩], some false⟩]
    ∧ toggleSubtask 3 99 [⟨1, "a", false, some [⟨10, "s", false⟩], some false⟩]
        = [⟨1, "a", false, some [⟨10, "s", false⟩], some false⟩]
    ∧ toggleSubtask 1 99 [⟨1, "a", false, some [⟨10, "s", false⟩], some false⟩]
        = [⟨1, "a", false, some [⟨10, "s", false⟩], some false⟩] :=
  ⟨(claim_C6_frame [⟨1, "a", false, some [⟨10, "s", false⟩], some false⟩] 3 99 0).2.1
      (by decide),
   (claim_C6_frame [⟨1, "a", false, some [⟨10, "s", false⟩], some false⟩] 3 99 0).2.2.2.1
      (by decide),
   (claim_C6_frame [⟨1, "a", false, some [⟨10, "s", false⟩], some false⟩] 1 99 0).2.2.2.2.1
      (by decide)⟩

/-! ## Repository operation traces (for the id-uniqueness claim)

A trace is a list of user-level mutations applied from the left, each
carrying the platform inputs (`Date.now()` reading, random id draws, HTTP
outcome) it consumed. -/

inductive RepoOp
  | add (now : Int) (text : String)
  | toggle (id : Int)
  | toggleSub (taskId subId : Int)
  | del (id : Int)
  | expand (id : Int)
  | breakdown (outcome : FetchOutcome) (idGen : Nat → Int) (taskId : Int)

def applyOp : RepoOp → List Task → List Task
  | .add now text, ts => addTask now text ts
  | .toggle i, ts => toggleTask i ts
  | .toggleSub a b, ts => toggleSubtask a b ts
  | .del i, ts => deleteTask i ts
  | .expand i, ts => toggleExpand i ts
  | .breakdown o g i, ts => (handleSmartBreakdown o g i ts).1

def applyOps (ops : List RepoOp) (ts : List Task) : List Task :=
  ops.foldl (fun acc op => applyOp op acc) ts

/-- The id invariant of the data model: task ids are duplicate-free across
the collection and subtask ids are duplicate-free within each task. -/
def UniqueIds (ts : List Task) : Prop :=
  (ts.map Task.id).Nodup ∧ ∀ t ∈ ts, ((t.subtasks.getD []).map SubTask.id).Nodup

instance (ts : List Task) : Decidable (UniqueIds ts) := by
  unfold UniqueIds
  infer_instance

/-- Freshness of the platform inputs an operation consumed, relative to the
state it ran in: an effective `add` read a clock value distinct from every
existing task id, and a breakdown's random draws are pairwise distinct and
avoid the target task's existing subtask ids. -/
def opFresh : RepoOp → List Task → Prop
  | .add now text, ts => jsTrim text = "" ∨ now ∉ ts.map Task.id
  | .breakdown _ idGen taskId, ts =>
      (∀ j k : Nat, j ≠ k → idGen j ≠ idGen k) ∧
      ∀ t ∈ ts, t.id = taskId → ∀ k : Nat, idGen k ∉ (t.subtasks.getD []).map SubTask.id
  | _, _ => True

/-- A trace whose every operation consumed fresh platform inputs. -/
inductive FreshTrace : List Task → List RepoOp → Prop
  | nil (ts : List Task) : FreshTrace ts []
  | cons {ts : List Task} {op : RepoOp} {ops : List RepoOp} :
      opFresh op ts → FreshTrace (applyOp op ts) ops → FreshTrace ts (op :: ops)

theorem mkSubtasks_ids (idGen : Nat → Int) (steps : List String) :
    (mkSubtasks idGen steps).map SubTask.id = (List.range steps.length).map idGen := by
  rw [mkSubtasks, List.map_map, ← List.enum_map_fst steps, List.map_map]
  rfl

/-- Mapping a per-task update that keeps ids and keeps each task's subtask
ids duplicate-free preserves the id invariant. -/
theorem uniqueIds_map (ts : List Task) (f : Task → Task)
    (hid : ∀ t ∈ ts, (f t).id = t.id)
    (hsub : ∀ t ∈ ts, ((t.subtasks.getD []).map SubTask.id).Nodup →
        (((f t).subtasks.getD []).map SubTask.id).Nodup)
    (h : UniqueIds ts) : UniqueIds (ts.map f) := by
  constructor
  · rw [List.map_map]
    have : ts.map (Task.id ∘ f) = ts.map Task.id :=
      List.map_congr_left fun t ht => hid t ht
    rw [this]
    exact h.1
  · intro t' ht'
    rcases List.mem_map.mp ht' with ⟨t, ht, rfl⟩
    exact hsub t ht (h.2 t ht)

theorem uniqueIds_applyOp (op : RepoOp) (ts : List Task)
    (hf : opFresh op ts) (h : UniqueIds ts) : UniqueIds (applyOp op ts) := by
  cases op with
  | add now text =>
    show UniqueIds (addTask now text ts)
    by_cases he : jsTrim text = ""
    · rw [addTask, if_pos he]
      exact h
    · rcases hf with hf | hf
      · exact absurd hf he
      · rw [addTask, if_neg he]
        constructor
        · rw [List.map_append]
          exact List.Nodup.append h.1 (by simp)
            (by simpa [List.disjoint_singleton] using hf)
        · intro t ht
          rcases List.mem_append.mp ht with h1 | h1
          · exact h.2 t h1
          · simp only [List.mem_singleton] at h1
            subst h1
            simp
  | toggle i =>
    refine uniqueIds_map ts _ (fun t _ => ?_) (fun t _ hn => ?_) h
    · by_cases he : t.id = i <;> simp [he]
    · by_cases he : t.id = i <;> simpa [he] using hn
  | expand i =>
    refine uniqueIds_map ts _ (fun t _ => ?_) (fun t _ hn => ?_) h
    · by_cases he : t.id = i <;> simp [he]
    · by_cases he : t.id = i <;> simpa [he] using hn
  | toggleSub a b =>
    refine uniqueIds_map ts _ (fun t _ => ?_) (fun t _ hn => ?_) h
    · by_cases he : t.id = a <;> simp [he]
    · by_cases he : t.id = a
      · rw [he]
        simp only [if_pos rfl]
        cases hs : t.subtasks with
        | none => simp [hs]
        | some l =>
          have : (l.map fun st =>
              if st.id = b then { st with completed := !st.completed } else st).map
                SubTask.id = l.map SubTask.id := by
            rw [List.map_map]
            refine List.map_congr_left fun st _ => ?_
            by_cases hb : st.id = b <;> simp [hb]
          simpa [hs, this] using hn
      · simpa [he] using hn
  | del i =>
    constructor
    · exact h.1.sublist (List.Sublist.map Task.id (List.filter_sublist ts))
    · intro t ht
      exact h.2 t (List.mem_of_mem_filter ht)
  | breakdown o g i =>
    show UniqueIds (handleSmartBreakdown o g i ts).1
    rcases handleSmartBreakdown_cases o g i ts with hcase | ⟨steps, hcase⟩
    · rw [hcase]
      exact h
    · rw [hcase]
      refine uniqueIds_map ts _ (fun t _ => ?_) (fun t ht hn => ?_) h
      · by_cases he : t.id = i <;> simp [he]
      · by_cases he : t.id = i
        · rw [if_pos he]
          simp only [Option.getD_some, List.map_append]
          refine List.Nodup.append hn ?_ ?_
          · rw [mkSubtasks_ids]
            exact List.Nodup.map_on
              (fun x hx y hy hxy => by_contra fun hne => hf.1 x y hne hxy)
              (List.nodup_range _)
          · intro x hx hx'
            rw [mkSubtasks_ids] at hx'
            rcases List.mem_map.mp hx' with ⟨k, _, rfl⟩
            exact hf.2 t ht he k hx
        · simpa [he] using hn

theorem uniqueIds_applyOps (ops : List RepoOp) (ts : List Task)
    (h : UniqueIds ts) (htr : FreshTrace ts ops) : UniqueIds (applyOps ops ts) := by
  induction ops generalizing ts with
  | nil => exact h
  | cons op ops ih =>
    cases htr with
    | cons hf htr' => exact ih _ (uniqueIds_applyOp op ts hf h) htr'

/-- C7 counterexample: two adds that read the same `Date.now()` millisecond
produce duplicate task ids, so uniqueness does not hold for every operation
sequence. -/
theorem claim_C7_cex :
    ¬ ((applyOps [RepoOp.add 1000 ("a"), RepoOp.add 1000 ("b")] []).map Task.id).Nodup := by
  decide

/-- C7 (amended): starting from the empty collection, task ids stay unique
across the collection and subtask ids stay unique within their parent task
along every operation sequence whose platform inputs are fresh — every
effective add reads a clock value distinct from the existing task ids, and
every breakdown's random draws are pairwise distinct and avoid the target's
existing subtask ids. -/
theorem claim_C7_unique_ids (ops : List RepoOp) (h : FreshTrace [] ops) :
    UniqueIds (applyOps ops []) :=
  uniqueIds_applyOps ops [] ⟨List.nodup_nil, by simp⟩ h

/-- Witness for the amended C7: an add followed by a successful breakdown
with fresh draws. -/
theorem claim_C7_unique_ids_witness :
    UniqueIds (applyOps [RepoOp.add 1 ("a"),
      RepoOp.breakdown (FetchOutcome.httpResponse true (some ("[\"x\",\"y\"]")))
        (fun k => 100 + (k : Int)) 1] []) :=
  claim_C7_unique_ids _
    (FreshTrace.cons (Or.inr (by decide))
      (FreshTrace.cons
        ⟨by
          intro j k hjk heq
          apply hjk
          simp only [add_right_inj, Nat.cast_inj] at heq
          exact heq,
         by
          intro t ht htid k
          have he : applyOp (RepoOp.add 1 ("a")) ([] : List Task)
              = [⟨1, "a", false, some [], some false⟩] := by decide
          rw [he] at ht
          simp only [List.mem_singleton] at ht
          subst ht
          simp⟩
        (FreshTrace.nil _)))

end ZenFocus
